import Mathlib

/-!
Shallow embedding of the olio crate's core: the positioned readers
`ReadPos` and `ReadSlice` over a `PosRead` capability (src/fs/read.rs,
src/fs/pos_read.rs), and the concurrent memory-advice arbitration of
`MemHandle` / `Mem` (src/mem/handle.rs).

The underlying `PosRead` resource (a `File` read via `pread`/`read_at`)
is modelled as a deterministic byte list; `u64` arithmetic is modelled
on `Nat` with explicit `2 ^ 64` bounds for the checked/saturating
operations the source uses.  Rust panics and failed assertions are
modelled as `Option.none`; recoverable `io::Error` results as `Except`.
The atomic compare-and-swap loop of `Mem::adjust_advice` is embedded as
its single-iteration sequential body with the shared packed counter
passed explicitly.
-/

/-- Modulus of Rust `u64` arithmetic: `u64::MAX + 1`. -/
def u64Lim : Nat := 2 ^ 64

/-- Model of Rust `u64::checked_add`. -/
def checked_add (a b : Nat) : Option Nat :=
  if a + b < u64Lim then some (a + b) else none

/-- Model of Rust `u64::checked_sub`. -/
def checked_sub (a b : Nat) : Option Nat :=
  if b ≤ a then some (a - b) else none

/-- Model of Rust `u64::saturating_add`. -/
def saturating_add (a b : Nat) : Nat :=
  min (a + b) (u64Lim - 1)

/-- Model of the `PosRead` capability (`impl PosRead for Borrow<File>`,
src/fs/pos_read.rs): read up to `buflen` bytes of `file` starting at
absolute `offset`.  Reads beyond the end of available bytes return 0
bytes; no cursor is involved. -/
def filePread (file : List Nat) (buflen offset : Nat) : List Nat :=
  (file.drop offset).take buflen

/-- Model of `std::io::SeekFrom`. -/
inductive SeekFrom where
  | Start : Nat → SeekFrom
  | End : Int → SeekFrom
  | Current : Int → SeekFrom
  deriving DecidableEq, Repr

/-- Seek errors raised by `ReadPos`/`ReadSlice`: `ErrorKind::InvalidInput`
for a negative resolved position, `ErrorKind::Other` for u64 overflow. -/
inductive SeekError where
  | invalidInput : SeekError
  | overflow : SeekError
  deriving DecidableEq, Repr

/-- State of `ReadPos<P, B>` (src/fs/read.rs): instance position, fixed
length, and the shared underlying file (modelled by content). -/
structure ReadPos where
  pos : Nat
  length : Nat
  file : List Nat
  deriving DecidableEq, Repr

/-- Model of `ReadPos::new`. -/
def ReadPos.new (file : List Nat) (length : Nat) : ReadPos :=
  { pos := 0, length := length, file := file }

/-- Model of `ReadPos::len`. -/
def ReadPos.len (rp : ReadPos) : Nat := rp.length

/-- Model of `ReadPos::tell`. -/
def ReadPos.tell (rp : ReadPos) : Nat := rp.pos

/-- Model of `PosRead for ReadPos`: delegate to the underlying file. -/
def ReadPos.pread (rp : ReadPos) (buflen offset : Nat) : List Nat :=
  filePread rp.file buflen offset

/-- Model of `Read::read for ReadPos`: positioned read at `pos`, then
advance `pos` by the number of bytes read. -/
def ReadPos.read (rp : ReadPos) (buflen : Nat) : List Nat × ReadPos :=
  let bs := rp.pread buflen rp.pos
  (bs, { rp with pos := rp.pos + bs.length })

/-- Model of `ReadPos::seek_from`: signed offset from an origin with
underflow and overflow checking; position updated only on success. -/
def ReadPos.seek_from (rp : ReadPos) (origin : Nat) (offset : Int) :
    ReadPos × Except SeekError Nat :=
  let checked_pos :=
    if offset < 0 then checked_sub origin (-offset).toNat
    else checked_add origin offset.toNat
  match checked_pos with
  | some p => ({ rp with pos := p }, Except.ok p)
  | none =>
      if offset < 0 then (rp, Except.error SeekError.invalidInput)
      else (rp, Except.error SeekError.overflow)

/-- Model of `Seek::seek for ReadPos`. -/
def ReadPos.seek (rp : ReadPos) (sf : SeekFrom) : ReadPos × Except SeekError Nat :=
  match sf with
  | SeekFrom.Start p => ({ rp with pos := p }, Except.ok p)
  | SeekFrom.End offset => rp.seek_from rp.length offset
  | SeekFrom.Current offset => rp.seek_from rp.pos offset

/-- Model of `Clone for ReadPos`: same length and file reference,
position reset to 0. -/
def ReadPos.clone (rp : ReadPos) : ReadPos :=
  { pos := 0, length := rp.length, file := rp.file }

/-- State of `ReadSlice<P, B>` (src/fs/read.rs): fixed `start`/`end`
window, absolute instance position, shared underlying file. The Rust
field `end` is rendered `end_`. -/
structure ReadSlice where
  start : Nat
  pos : Nat
  end_ : Nat
  file : List Nat
  deriving DecidableEq, Repr

/-- Model of `ReadSlice::new`; the `assert!(start <= end)` is modelled
by returning `none` (panic) when it fails. -/
def ReadSlice.new (file : List Nat) (start end_ : Nat) : Option ReadSlice :=
  if start ≤ end_ then
    some { start := start, pos := start, end_ := end_, file := file }
  else none

/-- Model of `ReadSlice::len`. -/
def ReadSlice.len (rs : ReadSlice) : Nat := rs.end_ - rs.start

/-- Model of `ReadSlice::tell` (relative position `pos - start`). -/
def ReadSlice.tell (rs : ReadSlice) : Nat := rs.pos - rs.start

/-- Model of `ReadSlice::pread_abs`: absolute-position read, clipped so
that no byte at or past `end_` is requested. -/
def ReadSlice.pread_abs (rs : ReadSlice) (buflen abspos : Nat) : List Nat :=
  if abspos < rs.end_ then
    let mlen := rs.end_ - abspos
    if buflen ≤ mlen then filePread rs.file buflen abspos
    else filePread rs.file mlen abspos
  else []

/-- Model of `ReadSlice::seek_to`: absolute position validated against
`start`; returns the new relative position. -/
def ReadSlice.seek_to (rs : ReadSlice) (abspos : Nat) :
    ReadSlice × Except SeekError Nat :=
  if abspos < rs.start then (rs, Except.error SeekError.invalidInput)
  else ({ rs with pos := abspos }, Except.ok (abspos - rs.start))

/-- Model of `ReadSlice::seek_from`: signed offset from an absolute
origin with underflow and overflow checking. -/
def ReadSlice.seek_from (rs : ReadSlice) (origin : Nat) (offset : Int) :
    ReadSlice × Except SeekError Nat :=
  let checked_pos :=
    if offset < 0 then checked_sub origin (-offset).toNat
    else checked_add origin offset.toNat
  match checked_pos with
  | some p => rs.seek_to p
  | none =>
      if offset < 0 then (rs, Except.error SeekError.invalidInput)
      else (rs, Except.error SeekError.overflow)

/-- Model of `Clone for ReadSlice`: same start, end and file reference,
position reset to `start`. -/
def ReadSlice.clone (rs : ReadSlice) : ReadSlice :=
  { start := rs.start, pos := rs.start, end_ := rs.end_, file := rs.file }

/-- Model of `PosRead for ReadSlice`: relative offset saturating-added
to `start`, then clipped to the window. -/
def ReadSlice.pread (rs : ReadSlice) (buflen offset : Nat) : List Nat :=
  let pos := saturating_add rs.start offset
  if pos < rs.end_ then rs.pread_abs buflen pos else []

/-- Model of `Read::read for ReadSlice`: clipped read at the absolute
instance position, then advance by the number of bytes read. -/
def ReadSlice.read (rs : ReadSlice) (buflen : Nat) : List Nat × ReadSlice :=
  let bs := rs.pread_abs buflen rs.pos
  (bs, { rs with pos := rs.pos + bs.length })

/-- Model of `Seek::seek for ReadSlice`: relative seeks over the fixed
`start`/`end_` window. -/
def ReadSlice.seek (rs : ReadSlice) (sf : SeekFrom) :
    ReadSlice × Except SeekError Nat :=
  match sf with
  | SeekFrom.Start p =>
      match checked_add rs.start p with
      | some q => rs.seek_to q
      | none => (rs, Except.error SeekError.overflow)
  | SeekFrom.End offset => rs.seek_from rs.end_ offset
  | SeekFrom.Current offset => rs.seek_from rs.pos offset

/-- Model of `ReadSubSlice for ReadSlice::subslice`: the overflow
`expect`s and containment `assert!`s are modelled by `none` (panic). -/
def ReadSlice.subslice (rs : ReadSlice) (start end_ : Nat) : Option ReadSlice :=
  match checked_add rs.start start, checked_add rs.start end_ with
  | some abs_start, some abs_end =>
      if abs_start ≤ abs_end ∧ rs.start ≤ abs_start ∧ abs_end ≤ rs.end_ then
        ReadSlice.new rs.file abs_start abs_end
      else none
  | _, _ => none

/-- Model of `ReadSubSlice for ReadPos::subslice`: constructs a
`ReadSlice` over absolute `start..end_` with no containment check
against the length. -/
def ReadPos.subslice (rp : ReadPos) (start end_ : Nat) : Option ReadSlice :=
  ReadSlice.new rp.file start end_

/-- Memory access pattern advice (src/mem/handle.rs), ordered by
ascending priority. -/
inductive MemAdvice where
  | Normal
  | Random
  | Sequential
  deriving DecidableEq, Repr

/-- Discriminant values of `MemAdvice` (`advice as uadv`): each
non-baseline level is a 10-bit mask into the packed advisors counter. -/
def MemAdvice.toUadv : MemAdvice → Nat
  | MemAdvice.Normal => 0
  | MemAdvice.Random => 0x003FF
  | MemAdvice.Sequential => 0xFFC00

/-- Model of `MemAdviseError`: the nonzero return code of the platform
advisory call. -/
structure MemAdviseError where
  ecode : Int
  deriving DecidableEq, Repr

/-- Model of `decr_advisors`: given packed advisors state and prior
advice, return the state with the prior level's field decremented
(never below zero). -/
def decr_advisors (advisors : Nat) (prior : MemAdvice) : Nat :=
  if prior ≠ MemAdvice.Normal then
    let p0 := advisors &&& prior.toUadv
    let a1 := advisors - p0
    let p1 := if prior = MemAdvice.Sequential then p0 >>> 10 else p0
    let p2 := if p1 > 0 then p1 - 1 else p1
    let p3 := if prior = MemAdvice.Sequential then p2 <<< 10 else p2
    a1 ||| p3
  else advisors

/-- Model of `incr_advisors`: given packed advisors state and new
advice, return the state with the new level's field incremented
(saturating at the 10-bit capacity 1023). -/
def incr_advisors (advisors : Nat) (advice : MemAdvice) : Nat :=
  let cur0 := advisors &&& advice.toUadv
  let a1 := advisors - cur0
  match advice with
  | MemAdvice.Normal => a1
  | MemAdvice.Random =>
      let cur1 := if cur0 < 0x3FF then cur0 + 1 else cur0
      a1 ||| cur1
  | MemAdvice.Sequential =>
      let cur1 := cur0 >>> 10
      let cur2 := if cur1 < 0x3FF then cur1 + 1 else cur1
      let cur3 := cur2 <<< 10
      a1 ||| cur3

/-- Model of `top_most`: highest-priority advice level whose packed
field is nonzero, `Normal` when all fields are zero. -/
def top_most (advisors : Nat) : MemAdvice :=
  if advisors &&& MemAdvice.Sequential.toUadv > 0 then MemAdvice.Sequential
  else if advisors &&& MemAdvice.Random.toUadv > 0 then MemAdvice.Random
  else MemAdvice.Normal

/-- Outcome of one successful compare-and-swap iteration of
`Mem::adjust_advice`: the committed packed counter, whether the platform
advisory call was invoked, and the returned result. -/
structure AdjustResult where
  advisors : Nat
  syscalled : Bool
  result : Except MemAdviseError MemAdvice
  deriving Repr

/-- Model of `Mem::adjust_advice` (the body of its CAS retry loop at the
iteration whose compare-and-swap succeeds), with the shared atomic
counter passed and returned explicitly.  The platform advisory call
`advise` is an external collaborator, modelled by `syscall`: `none`
for success, `some e` for a nonzero error code. -/
def Mem.adjust_advice (syscall : MemAdvice → Option Int) (advisors : Nat)
    (prior advice : MemAdvice) : AdjustResult :=
  let old_top := top_most advisors
  let new_adv := incr_advisors (decr_advisors advisors prior) advice
  let new_top := top_most new_adv
  if new_top ≠ old_top then
    match syscall new_top with
    | none =>
        { advisors := new_adv, syscalled := true, result := Except.ok new_top }
    | some e =>
        { advisors := new_adv, syscalled := true,
          result := Except.error { ecode := e } }
  else
    { advisors := new_adv, syscalled := false, result := Except.ok new_top }

/-- Shared state behind the `Arc` of a `MemHandle`: the byte buffer and
the packed advisors counter. -/
structure Mem where
  mem : List Nat
  advisors : Nat
  deriving DecidableEq, Repr

/-- Model of `Mem::new`. -/
def Mem.new (mem : List Nat) : Mem :=
  { mem := mem, advisors := 0 }

/-- State of a `MemHandle`: the shared `Mem` and this handle's own
current advice level. -/
structure MemHandle where
  mem : Mem
  advice : MemAdvice
  deriving DecidableEq, Repr

/-- Model of `MemHandle::new`: wraps a buffer at baseline `Normal`. -/
def MemHandle.new (mem : List Nat) : MemHandle :=
  { mem := Mem.new mem, advice := MemAdvice.Normal }

/-- Model of `Clone for MemHandle`: shares the same `Mem` (buffer and
advisors state), with this handle's advice reset to `Normal`. -/
def MemHandle.clone (h : MemHandle) : MemHandle :=
  { mem := h.mem, advice := MemAdvice.Normal }

/-- Model of `MemHandle::advise` with the handle's own atomic `advice`
level and the shared packed counter passed explicitly: swap in the new
level, then adjust the shared counter unless the level is unchanged.
Returns the new handle level, the new shared counter, and the result. -/
def MemHandle.adviseStep (syscall : MemAdvice → Option Int)
    (hadvice : MemAdvice) (advisors : Nat) (advice : MemAdvice) :
    MemAdvice × Nat × Except MemAdviseError MemAdvice :=
  let prior := hadvice
  if advice = prior then (advice, advisors, Except.ok prior)
  else
    let r := Mem.adjust_advice syscall advisors prior advice
    (advice, r.advisors, r.result)

/-- Model of `Drop for MemHandle`: a non-baseline handle withdraws its
contribution (an `adjust_advice` to `Normal` whose result is
discarded); returns the new shared counter. -/
def MemHandle.dropStep (syscall : MemAdvice → Option Int)
    (hadvice : MemAdvice) (advisors : Nat) : Nat :=
  if hadvice ≠ MemAdvice.Normal then
    (Mem.adjust_advice syscall advisors hadvice MemAdvice.Normal).advisors
  else advisors

/-- Platform advisory call that always succeeds (the non-unix no-op, or
a unix `posix_madvise` returning 0). -/
def sysOk : MemAdvice → Option Int := fun _ => none

/-- Low 10-bit field (`Random` mask) of the packed counter is `% 1024`. -/
theorem and_mask_lo (a : Nat) : a &&& 0x3FF = a % 1024 := by
  have h : (0x3FF : Nat) = 2 ^ 10 - 1 := by norm_num
  rw [h, Nat.and_pow_two_sub_one_eq_mod]

/-- Bits 11..20 (`Sequential` mask) of the packed counter extract the
second 10-bit field. -/
theorem and_mask_mid (a : Nat) : a &&& 0xFFC00 = 1024 * (a / 1024 % 1024) := by
  have h20 : a &&& 0xFFFFF = a % 1048576 := by
    have h : (0xFFFFF : Nat) = 2 ^ 20 - 1 := by norm_num
    rw [h, Nat.and_pow_two_sub_one_eq_mod]
  have hsplit : a &&& 0xFFFFF = (a &&& 0xFFC00) ||| (a &&& 0x3FF) := by
    rw [show (0xFFFFF : Nat) = 0xFFC00 ||| 0x3FF from rfl, Nat.and_or_distrib_left]
  have hdisj : (a &&& 0xFFC00) % 1024 = 0 := by
    rw [← and_mask_lo, Nat.and_assoc,
        show (0xFFC00 &&& 0x3FF : Nat) = 0 from rfl, Nat.and_zero]
  have hlt : a &&& 0x3FF < 2 ^ 10 := by rw [and_mask_lo]; omega
  have hx : a &&& 0xFFC00 = 2 ^ 10 * ((a &&& 0xFFC00) / 1024) := by omega
  have hor : (a &&& 0xFFC00) ||| (a &&& 0x3FF)
      = (a &&& 0xFFC00) + (a &&& 0x3FF) := by
    conv_lhs => rw [hx]
    rw [← Nat.mul_add_lt_is_or hlt, ← hx]
  rw [hsplit, hor, and_mask_lo] at h20
  omega

/-- Bitwise or of a value with zero low field and a small value is
addition. -/
theorem lor_low (x c : Nat) (hx : x % 1024 = 0) (hc : c < 1024) :
    x ||| c = x + c := by
  have h : x = 2 ^ 10 * (x / 1024) := by omega
  conv_lhs => rw [h]
  rw [← Nat.mul_add_lt_is_or (show c < 2 ^ 10 by omega), ← h]

/-- Bitwise or installing a middle 10-bit field into a value whose
middle field is clear is addition. -/
theorem lor_mid (lo mid hi : Nat) (hlo : lo < 1024) (hmid : mid < 1024) :
    (lo + 1048576 * hi) ||| (1024 * mid) = lo + 1024 * mid + 1048576 * hi := by
  rw [show lo + 1048576 * hi = 2 ^ 20 * hi + lo by omega,
      Nat.mul_add_lt_is_or (show lo < 2 ^ 20 by omega) hi,
      Nat.lor_assoc, Nat.lor_comm lo (1024 * mid), ← Nat.lor_assoc,
      ← Nat.mul_add_lt_is_or (show 1024 * mid < 2 ^ 20 by omega) hi,
      show 2 ^ 20 * hi + 1024 * mid = 2 ^ 10 * (1024 * hi + mid) by omega,
      ← Nat.mul_add_lt_is_or (show lo < 2 ^ 10 by omega) (1024 * hi + mid)]
  omega

/-- Arithmetic characterization of `decr_advisors` at `Normal`. -/
theorem decr_normal_eq (a : Nat) : decr_advisors a MemAdvice.Normal = a := by
  simp [decr_advisors]

/-- Arithmetic characterization of `decr_advisors` at `Random`. -/
theorem decr_random_eq (a : Nat) :
    decr_advisors a MemAdvice.Random = if a % 1024 = 0 then a else a - 1 := by
  have hu : decr_advisors a MemAdvice.Random
      = (a - (a &&& 0x3FF)) |||
        (if 0 < (a &&& 0x3FF) then (a &&& 0x3FF) - 1 else (a &&& 0x3FF)) := by
    simp [decr_advisors, MemAdvice.toUadv]
  rw [hu, and_mask_lo]
  by_cases h : a % 1024 = 0
  · simp [h]
  · rw [if_pos (by omega : 0 < a % 1024), if_neg h,
        lor_low (a - a % 1024) (a % 1024 - 1) (by omega) (by omega)]
    omega

/-- Arithmetic characterization of `decr_advisors` at `Sequential`. -/
theorem decr_seq_eq (a : Nat) :
    decr_advisors a MemAdvice.Sequential
      = if a / 1024 % 1024 = 0 then a else a - 1024 := by
  have hu : decr_advisors a MemAdvice.Sequential
      = (a - (a &&& 0xFFC00)) |||
        ((if 0 < (a &&& 0xFFC00) >>> 10 then (a &&& 0xFFC00) >>> 10 - 1
          else (a &&& 0xFFC00) >>> 10) <<< 10) := by
    simp [decr_advisors, MemAdvice.toUadv]
  have hm : (1024 * (a / 1024 % 1024)) >>> 10 = a / 1024 % 1024 := by
    rw [Nat.shiftRight_eq_div_pow, show (2 : Nat) ^ 10 = 1024 by norm_num]
    omega
  rw [hu, and_mask_mid, hm]
  by_cases h : a / 1024 % 1024 = 0
  · simp [h]
  · rw [if_pos (by omega : 0 < a / 1024 % 1024), if_neg h, Nat.shiftLeft_eq,
        show a - 1024 * (a / 1024 % 1024)
          = a % 1024 + 1048576 * (a / 1048576) by omega,
        show (a / 1024 % 1024 - 1) * 2 ^ 10 = 1024 * (a / 1024 % 1024 - 1) by ring,
        lor_mid (a % 1024) (a / 1024 % 1024 - 1) (a / 1048576) (by omega) (by omega)]
    omega

/-- Arithmetic characterization of `incr_advisors` at `Normal`. -/
theorem incr_normal_eq (a : Nat) : incr_advisors a MemAdvice.Normal = a := by
  simp [incr_advisors, MemAdvice.toUadv]

/-- Arithmetic characterization of `incr_advisors` at `Random`:
saturating increment of the low field. -/
theorem incr_random_eq (a : Nat) :
    incr_advisors a MemAdvice.Random
      = if a % 1024 < 1023 then a + 1 else a := by
  have hu : incr_advisors a MemAdvice.Random
      = (a - (a &&& 0x3FF)) |||
        (if (a &&& 0x3FF) < 1023 then (a &&& 0x3FF) + 1 else (a &&& 0x3FF)) := by
    simp [incr_advisors, MemAdvice.toUadv]
  rw [hu, and_mask_lo]
  by_cases h : a % 1024 < 1023
  · rw [if_pos h, if_pos h,
        lor_low (a - a % 1024) (a % 1024 + 1) (by omega) (by omega)]
    omega
  · rw [if_neg h, if_neg h,
        lor_low (a - a % 1024) (a % 1024) (by omega) (by omega)]
    omega

/-- Arithmetic characterization of `incr_advisors` at `Sequential`:
saturating increment of the middle field. -/
theorem incr_seq_eq (a : Nat) :
    incr_advisors a MemAdvice.Sequential
      = if a / 1024 % 1024 < 1023 then a + 1024 else a := by
  have hu : incr_advisors a MemAdvice.Sequential
      = (a - (a &&& 0xFFC00)) |||
        ((if (a &&& 0xFFC00) >>> 10 < 1023 then (a &&& 0xFFC00) >>> 10 + 1
          else (a &&& 0xFFC00) >>> 10) <<< 10) := by
    simp [incr_advisors, MemAdvice.toUadv]
  have hm : (1024 * (a / 1024 % 1024)) >>> 10 = a / 1024 % 1024 := by
    rw [Nat.shiftRight_eq_div_pow, show (2 : Nat) ^ 10 = 1024 by norm_num]
    omega
  rw [hu, and_mask_mid, hm]
  by_cases h : a / 1024 % 1024 < 1023
  · rw [if_pos h, if_pos h, Nat.shiftLeft_eq,
        show a - 1024 * (a / 1024 % 1024)
          = a % 1024 + 1048576 * (a / 1048576) by omega,
        show (a / 1024 % 1024 + 1) * 2 ^ 10 = 1024 * (a / 1024 % 1024 + 1) by ring,
        lor_mid (a % 1024) (a / 1024 % 1024 + 1) (a / 1048576) (by omega) (by omega)]
    omega
  · rw [if_neg h, if_neg h, Nat.shiftLeft_eq,
        show a - 1024 * (a / 1024 % 1024)
          = a % 1024 + 1048576 * (a / 1048576) by omega,
        show (a / 1024 % 1024) * 2 ^ 10 = 1024 * (a / 1024 % 1024) by ring,
        lor_mid (a % 1024) (a / 1024 % 1024) (a / 1048576) (by omega) (by omega)]
    omega

/-- Arithmetic characterization of `top_most`: the `Sequential` field is
inspected first, then `Random`, else baseline `Normal`. -/
theorem top_most_eq (a : Nat) :
    top_most a = if a / 1024 % 1024 ≠ 0 then MemAdvice.Sequential
      else if a % 1024 ≠ 0 then MemAdvice.Random else MemAdvice.Normal := by
  have hu : top_most a
      = if 0 < (a &&& 0xFFC00) then MemAdvice.Sequential
        else if 0 < (a &&& 0x3FF) then MemAdvice.Random else MemAdvice.Normal := by
    simp [top_most, MemAdvice.toUadv]
  rw [hu, and_mask_lo, and_mask_mid]
  by_cases h1 : a / 1024 % 1024 = 0
  · by_cases h2 : a % 1024 = 0
    · rw [if_neg (by omega : ¬ 0 < 1024 * (a / 1024 % 1024)),
          if_neg (by omega : ¬ 0 < a % 1024),
          if_neg (by omega : ¬ a / 1024 % 1024 ≠ 0),
          if_neg (by omega : ¬ a % 1024 ≠ 0)]
    · rw [if_neg (by omega : ¬ 0 < 1024 * (a / 1024 % 1024)),
          if_pos (by omega : 0 < a % 1024),
          if_neg (by omega : ¬ a / 1024 % 1024 ≠ 0),
          if_pos (by omega : a % 1024 ≠ 0)]
  · rw [if_pos (by omega : 0 < 1024 * (a / 1024 % 1024)),
        if_pos (by omega : a / 1024 % 1024 ≠ 0)]

/-- Platform advisory call that always fails with code 12. -/
def sysErr : MemAdvice → Option Int := fun _ => some 12

/-- Case analysis of `Mem.adjust_advice`: committed counter, syscall
invocation condition, and the result in each branch. -/
theorem adjust_advice_cases (syscall : MemAdvice → Option Int) (advisors : Nat)
    (prior advice : MemAdvice) :
    (Mem.adjust_advice syscall advisors prior advice).advisors
      = incr_advisors (decr_advisors advisors prior) advice
    ∧ ((Mem.adjust_advice syscall advisors prior advice).syscalled = true
        ↔ top_most (incr_advisors (decr_advisors advisors prior) advice)
            ≠ top_most advisors)
    ∧ (top_most (incr_advisors (decr_advisors advisors prior) advice)
          = top_most advisors →
        (Mem.adjust_advice syscall advisors prior advice).syscalled = false
        ∧ (Mem.adjust_advice syscall advisors prior advice).result
            = Except.ok (top_most advisors))
    ∧ (top_most (incr_advisors (decr_advisors advisors prior) advice)
          ≠ top_most advisors →
        syscall (top_most (incr_advisors (decr_advisors advisors prior) advice))
          = none →
        (Mem.adjust_advice syscall advisors prior advice).result
          = Except.ok (top_most
              (incr_advisors (decr_advisors advisors prior) advice)))
    ∧ (∀ e : Int,
        top_most (incr_advisors (decr_advisors advisors prior) advice)
          ≠ top_most advisors →
        syscall (top_most (incr_advisors (decr_advisors advisors prior) advice))
          = some e →
        (Mem.adjust_advice syscall advisors prior advice).result
          = Except.error { ecode := e }) := by
  simp only [Mem.adjust_advice]
  by_cases htop : top_most (incr_advisors (decr_advisors advisors prior) advice)
      ≠ top_most advisors
  · rw [if_pos htop]
    cases hsc : syscall
        (top_most (incr_advisors (decr_advisors advisors prior) advice)) with
    | none => simp [htop, hsc]
    | some e => simp [htop, hsc]
  · rw [if_neg htop]
    simp at htop
    simp [htop]

/-- C2: every successful `advise` that changes the handle's level
returns the highest-priority level whose packed counter field is
nonzero after the update (`top_most` of the committed counter, with
`top_most` characterized by field inspection, baseline `Normal` when
both fields are zero); concretely, with handle A at `Sequential` and
handle B at a lower level, `B.advise Random` reports `Sequential`, and
after dropping A a further `advise Random` on B reports `Random`. -/
theorem c2_advise_arbitration :
    (∀ (syscall : MemAdvice → Option Int) (hadvice : MemAdvice)
        (advisors : Nat) (advice eff : MemAdvice),
      advice ≠ hadvice →
      (MemHandle.adviseStep syscall hadvice advisors advice).2.2
        = Except.ok eff →
      eff = top_most (MemHandle.adviseStep syscall hadvice advisors advice).2.1)
    ∧ (∀ a : Nat, top_most a
        = if a / 1024 % 1024 ≠ 0 then MemAdvice.Sequential
          else if a % 1024 ≠ 0 then MemAdvice.Random else MemAdvice.Normal)
    ∧ MemHandle.adviseStep sysOk MemAdvice.Normal 0 MemAdvice.Sequential
        = (MemAdvice.Sequential, 1024, Except.ok MemAdvice.Sequential)
    ∧ MemHandle.adviseStep sysOk MemAdvice.Normal 1024 MemAdvice.Random
        = (MemAdvice.Random, 1025, Except.ok MemAdvice.Sequential)
    ∧ MemHandle.dropStep sysOk MemAdvice.Sequential 1025 = 1
    ∧ MemHandle.adviseStep sysOk MemAdvice.Random 1 MemAdvice.Random
        = (MemAdvice.Random, 1, Except.ok MemAdvice.Random) := by
  refine ⟨?_, top_most_eq, rfl, rfl, rfl, rfl⟩
  intro syscall hadvice advisors advice eff hne hok
  simp only [MemHandle.adviseStep, if_neg hne] at hok ⊢
  obtain ⟨ha, _hsy, heq, hoknone, herr⟩ :=
    adjust_advice_cases syscall advisors hadvice advice
  rw [ha]
  by_cases htop : top_most (incr_advisors (decr_advisors advisors hadvice) advice)
      = top_most advisors
  · rw [(heq htop).2] at hok
    injection hok with h
    rw [← h, htop]
  · cases hsc : syscall
        (top_most (incr_advisors (decr_advisors advisors hadvice) advice)) with
    | none =>
        rw [hoknone htop hsc] at hok
        injection hok with h
        exact h.symm
    | some e =>
        rw [herr e htop hsc] at hok
        exact absurd hok (by simp)

/-- Witness of `c2_advise_arbitration` at a concrete input: the
hypotheses of its first conjunct are discharged at `advisors = 1024`,
handle level `Normal`, new advice `Random`. -/
theorem c2_witness :
    MemAdvice.Sequential
      = top_most (MemHandle.adviseStep sysOk MemAdvice.Normal 1024
          MemAdvice.Random).2.1 :=
  c2_advise_arbitration.1 sysOk MemAdvice.Normal 1024 MemAdvice.Random
    MemAdvice.Sequential (by decide) rfl

/-- C3: after the successful compare-and-swap, the platform advisory
call is invoked iff the highest-priority nonzero field changed; on
advisory failure the error is returned while the counter keeps the
already-committed value; when the top field is unchanged the syscall is
skipped and the unchanged effective level is returned. -/
theorem c3_syscall_iff_top_changed :
    ∀ (syscall : MemAdvice → Option Int) (advisors : Nat)
      (prior advice : MemAdvice),
      prior ≠ advice →
      ((Mem.adjust_advice syscall advisors prior advice).syscalled = true
        ↔ top_most (incr_advisors (decr_advisors advisors prior) advice)
            ≠ top_most advisors)
      ∧ (∀ e : Int,
          top_most (incr_advisors (decr_advisors advisors prior) advice)
            ≠ top_most advisors →
          syscall (top_most (incr_advisors (decr_advisors advisors prior)
            advice)) = some e →
          (Mem.adjust_advice syscall advisors prior advice).result
            = Except.error { ecode := e }
          ∧ (Mem.adjust_advice syscall advisors prior advice).advisors
            = incr_advisors (decr_advisors advisors prior) advice)
      ∧ (top_most (incr_advisors (decr_advisors advisors prior) advice)
            = top_most advisors →
          (Mem.adjust_advice syscall advisors prior advice).syscalled = false
          ∧ (Mem.adjust_advice syscall advisors prior advice).result
            = Except.ok (top_most advisors)) := by
  intro syscall advisors prior advice _hne
  obtain ⟨ha, hsy, heq, _hoknone, herr⟩ :=
    adjust_advice_cases syscall advisors prior advice
  exact ⟨hsy, fun e ht hs => ⟨herr e ht hs, ha⟩, heq⟩

/-- Witness of `c3_syscall_iff_top_changed` at concrete inputs: an
always-failing advisory call on a top transition commits the counter
and reports the error; a non-transition skips the syscall. -/
theorem c3_witness :
    (Mem.adjust_advice sysErr 0 MemAdvice.Normal MemAdvice.Random).syscalled
        = true
    ∧ (Mem.adjust_advice sysErr 0 MemAdvice.Normal MemAdvice.Random).result
        = Except.error { ecode := 12 }
    ∧ (Mem.adjust_advice sysErr 0 MemAdvice.Normal MemAdvice.Random).advisors
        = 1
    ∧ (Mem.adjust_advice sysErr 5 MemAdvice.Normal MemAdvice.Random).syscalled
        = false
    ∧ (Mem.adjust_advice sysErr 5 MemAdvice.Normal MemAdvice.Random).result
        = Except.ok MemAdvice.Random := by
  have h0 := c3_syscall_iff_top_changed sysErr 0 MemAdvice.Normal
    MemAdvice.Random (by decide)
  have h5 := c3_syscall_iff_top_changed sysErr 5 MemAdvice.Normal
    MemAdvice.Random (by decide)
  exact ⟨h0.1.mpr (by decide), (h0.2.1 12 (by decide) rfl).1,
    (h0.2.1 12 (by decide) rfl).2, (h5.2.2 (by decide)).1,
    (h5.2.2 (by decide)).2⟩

/-- C4: incrementing a level's 10-bit field already holding 1023 leaves
the entire packed value unchanged (saturates, no wrap, no error),
decrementing a field holding zero leaves it at zero, and both
`incr_advisors` and `decr_advisors` leave the bits of the non-targeted
field unchanged. -/
theorem c4_advisors_saturate_and_preserve :
    (∀ a : Nat, a &&& 0x3FF = 1023 → incr_advisors a MemAdvice.Random = a)
    ∧ (∀ a : Nat, (a &&& 0xFFC00) >>> 10 = 1023 →
        incr_advisors a MemAdvice.Sequential = a)
    ∧ (∀ a : Nat, a &&& 0x3FF = 0 → decr_advisors a MemAdvice.Random = a)
    ∧ (∀ a : Nat, a &&& 0xFFC00 = 0 → decr_advisors a MemAdvice.Sequential = a)
    ∧ (∀ a : Nat,
        (incr_advisors a MemAdvice.Random) &&& 0xFFC00 = a &&& 0xFFC00
        ∧ (decr_advisors a MemAdvice.Random) &&& 0xFFC00 = a &&& 0xFFC00)
    ∧ (∀ a : Nat,
        (incr_advisors a MemAdvice.Sequential) &&& 0x3FF = a &&& 0x3FF
        ∧ (decr_advisors a MemAdvice.Sequential) &&& 0x3FF = a &&& 0x3FF) := by
  refine ⟨?_, ?_, ?_, ?_, ?_, ?_⟩
  · intro a h
    rw [and_mask_lo] at h
    rw [incr_random_eq, if_neg (by omega)]
  · intro a h
    rw [and_mask_mid, Nat.shiftRight_eq_div_pow,
      show (2 : Nat) ^ 10 = 1024 by norm_num] at h
    rw [incr_seq_eq, if_neg (by omega)]
  · intro a h
    rw [and_mask_lo] at h
    rw [decr_random_eq, if_pos h]
  · intro a h
    rw [and_mask_mid] at h
    rw [decr_seq_eq, if_pos (by omega)]
  · intro a
    refine ⟨?_, ?_⟩
    · rw [incr_random_eq, and_mask_mid, and_mask_mid]
      by_cases h : a % 1024 < 1023
      · rw [if_pos h]
        omega
      · rw [if_neg h]
    · rw [decr_random_eq, and_mask_mid, and_mask_mid]
      by_cases h : a % 1024 = 0
      · rw [if_pos h]
      · rw [if_neg h]
        omega
  · intro a
    refine ⟨?_, ?_⟩
    · rw [incr_seq_eq, and_mask_lo, and_mask_lo]
      by_cases h : a / 1024 % 1024 < 1023
      · rw [if_pos h]
        omega
      · rw [if_neg h]
    · rw [decr_seq_eq, and_mask_lo, and_mask_lo]
      by_cases h : a / 1024 % 1024 = 0
      · rw [if_pos h]
      · rw [if_neg h]
        omega

/-- Witness of `c4_advisors_saturate_and_preserve` at concrete packed
values: saturated increments and zero decrements of both fields. -/
theorem c4_witness :
    incr_advisors 1023 MemAdvice.Random = 1023
    ∧ incr_advisors 1047552 MemAdvice.Sequential = 1047552
    ∧ decr_advisors 1024 MemAdvice.Random = 1024
    ∧ decr_advisors 1 MemAdvice.Sequential = 1 :=
  ⟨c4_advisors_saturate_and_preserve.1 1023 (by decide),
   c4_advisors_saturate_and_preserve.2.1 1047552 (by decide),
   c4_advisors_saturate_and_preserve.2.2.1 1024 (by decide),
   c4_advisors_saturate_and_preserve.2.2.2.1 1 (by decide)⟩

/-- C8: clone shares the underlying resource but resets transient
state: a cloned `ReadPos` keeps length and file with position 0, a
cloned `ReadSlice` keeps start, end and file with position `start`, a
cloned `MemHandle` shares the buffer and advisors state with its level
reset to `Normal`; in all three cases the original's current position
or level is ignored. -/
theorem c8_clone_resets_state :
    (∀ rp : ReadPos, rp.clone.pos = 0 ∧ rp.clone.length = rp.length
      ∧ rp.clone.file = rp.file)
    ∧ (∀ rs : ReadSlice, rs.clone.start = rs.start ∧ rs.clone.end_ = rs.end_
      ∧ rs.clone.pos = rs.start ∧ rs.clone.file = rs.file)
    ∧ (∀ h : MemHandle, h.clone.mem = h.mem
      ∧ h.clone.advice = MemAdvice.Normal)
    ∧ (∀ (rp : ReadPos) (p : Nat),
        ({ rp with pos := p } : ReadPos).clone = rp.clone)
    ∧ (∀ (rs : ReadSlice) (p : Nat),
        ({ rs with pos := p } : ReadSlice).clone = rs.clone)
    ∧ (∀ (h : MemHandle) (l : MemAdvice),
        ({ h with advice := l } : MemHandle).clone = h.clone) :=
  ⟨fun _ => ⟨rfl, rfl, rfl⟩, fun _ => ⟨rfl, rfl, rfl, rfl⟩,
   fun _ => ⟨rfl, rfl⟩, fun _ _ => rfl, fun _ _ => rfl, fun _ _ => rfl⟩

/-- Reads at or past `end_` return no bytes and leave the slice
unchanged. -/
theorem ReadSlice.read_past_end (rs : ReadSlice) (n : Nat)
    (h : rs.end_ ≤ rs.pos) : rs.read n = ([], rs) := by
  simp only [ReadSlice.read, ReadSlice.pread_abs]
  rw [if_neg (by omega)]
  simp

/-- C1 counterexample: over a 5-byte resource, a `ReadPos` with logical
length 3 and position 3 (at its logical length) reads 2 bytes, not 0;
`logical_length` does not constrain reads. -/
theorem c1_counterexample :
    (ReadPos.read { pos := 3, length := 3, file := [1, 2, 3, 4, 5] } 2).1
      = [4, 5]
    ∧ ¬ (ReadPos.read { pos := 3, length := 3, file := [1, 2, 3, 4, 5] } 2).1
      = [] :=
  ⟨rfl, by decide⟩

/-- C1 (amended): a `ReadPos` whose position is at or past the extent
of the underlying resource reads 0 bytes without error and is left
unchanged; the fixed logical length plays no role in what a read
returns. -/
theorem c1_read_past_resource_end :
    (∀ (rp : ReadPos) (buflen : Nat),
      rp.file.length ≤ rp.pos → rp.read buflen = ([], rp))
    ∧ (∀ (rp : ReadPos) (buflen l : Nat),
      (({ rp with length := l } : ReadPos).read buflen).1
        = (rp.read buflen).1) := by
  constructor
  · intro rp buflen h
    simp only [ReadPos.read, ReadPos.pread, filePread]
    rw [List.drop_eq_nil_of_le h]
    simp
  · intro rp buflen l
    rfl

/-- Witness of `c1_read_past_resource_end` at a concrete input: a
position past a 3-byte resource reads nothing. -/
theorem c1_witness :
    ReadPos.read { pos := 5, length := 3, file := [1, 2, 3] } 4
      = ([], { pos := 5, length := 3, file := [1, 2, 3] }) :=
  c1_read_past_resource_end.1 { pos := 5, length := 3, file := [1, 2, 3] } 4
    (by decide)

/-- C6: no `ReadSlice` read touches a byte at or past `end_`: a
sequential read at or past `end_` returns 0 bytes without error, a
relative `pread` at or past the slice length returns 0 bytes, a read
below `end_` requests at most `end_ - pos` bytes from the underlying
capability, and a seek may place the position at or past `end_`, after
which reads return 0 bytes. -/
theorem c6_reads_clipped :
    (∀ (rs : ReadSlice) (n : Nat), rs.end_ ≤ rs.pos → rs.read n = ([], rs))
    ∧ (∀ (rs : ReadSlice) (n off : Nat), rs.start ≤ rs.end_ →
        rs.end_ < u64Lim → rs.len ≤ off → rs.pread n off = [])
    ∧ (∀ (rs : ReadSlice) (n : Nat), rs.pos < rs.end_ →
        ∃ m, m ≤ rs.end_ - rs.pos ∧ (rs.read n).1 = filePread rs.file m rs.pos)
    ∧ (∀ (rs : ReadSlice) (p n : Nat), rs.start ≤ p →
        (rs.seek_to p).2 = Except.ok (p - rs.start)
        ∧ (rs.end_ ≤ p → (rs.seek_to p).1.read n = ([], (rs.seek_to p).1))) := by
  refine ⟨fun rs n h => rs.read_past_end n h, ?_, ?_, ?_⟩
  · intro rs n off h1 h2 h3
    unfold ReadSlice.len at h3
    have hns : ¬ saturating_add rs.start off < rs.end_ := by
      simp only [saturating_add, u64Lim] at *
      omega
    simp only [ReadSlice.pread]
    rw [if_neg hns]
  · intro rs n h
    by_cases hb : n ≤ rs.end_ - rs.pos
    · refine ⟨n, hb, ?_⟩
      simp only [ReadSlice.read, ReadSlice.pread_abs]
      rw [if_pos h, if_pos hb]
    · refine ⟨rs.end_ - rs.pos, Nat.le_refl _, ?_⟩
      simp only [ReadSlice.read, ReadSlice.pread_abs]
      rw [if_pos h, if_neg hb]
  · intro rs p n h
    have h1 : (rs.seek_to p).1 = { rs with pos := p } := by
      simp only [ReadSlice.seek_to]
      rw [if_neg (by omega)]
    constructor
    · simp only [ReadSlice.seek_to]
      rw [if_neg (by omega)]
    · intro he
      rw [h1]
      exact ReadSlice.read_past_end _ n he

/-- Witness of `c6_reads_clipped` at concrete inputs over a 5-byte
file with window `[1, 4)`. -/
theorem c6_witness :
    ReadSlice.read { start := 1, pos := 4, end_ := 4, file := [9, 8, 7, 6, 5] } 3
      = ([], { start := 1, pos := 4, end_ := 4, file := [9, 8, 7, 6, 5] })
    ∧ ReadSlice.pread
        { start := 1, pos := 1, end_ := 4, file := [9, 8, 7, 6, 5] } 2 3 = []
    ∧ (∃ m, m ≤ 2
        ∧ (ReadSlice.read
            { start := 1, pos := 2, end_ := 4, file := [9, 8, 7, 6, 5] } 5).1
          = filePread [9, 8, 7, 6, 5] m 2)
    ∧ (ReadSlice.seek_to
        { start := 1, pos := 1, end_ := 4, file := [9, 8, 7, 6, 5] } 6).2
      = Except.ok 5 :=
  ⟨c6_reads_clipped.1 { start := 1, pos := 4, end_ := 4, file := [9, 8, 7, 6, 5] }
     3 (by decide),
   c6_reads_clipped.2.1 { start := 1, pos := 1, end_ := 4, file := [9, 8, 7, 6, 5] }
     2 3 (by decide) (by decide) (by decide),
   c6_reads_clipped.2.2.1 { start := 1, pos := 2, end_ := 4, file := [9, 8, 7, 6, 5] }
     5 (by decide),
   (c6_reads_clipped.2.2.2 { start := 1, pos := 1, end_ := 4, file := [9, 8, 7, 6, 5] }
     6 0 (by decide)).1⟩

/-- Positions produced by `seek_to` satisfy the `start ≤ pos` invariant
and keep `start` fixed. -/
theorem ReadSlice.seek_to_inv (rs : ReadSlice) (p : Nat)
    (h : rs.start ≤ rs.pos) :
    (rs.seek_to p).1.start ≤ (rs.seek_to p).1.pos := by
  simp only [ReadSlice.seek_to]
  by_cases hp : p < rs.start
  · rw [if_pos hp]
    exact h
  · rw [if_neg hp]
    show rs.start ≤ p
    omega

/-- Positions produced by `seek_from` satisfy the `start ≤ pos`
invariant. -/
theorem ReadSlice.seek_from_inv (rs : ReadSlice) (origin : Nat) (off : Int)
    (h : rs.start ≤ rs.pos) :
    (rs.seek_from origin off).1.start ≤ (rs.seek_from origin off).1.pos := by
  simp only [ReadSlice.seek_from]
  split
  · exact ReadSlice.seek_to_inv rs _ h
  · split
    · exact h
    · exact h

/-- C10: every reachable `ReadSlice` satisfies `start ≤ pos`:
established at construction (where `pos = start`), preserved by clone,
by every seek (success or failure) and by every read; hence `tell`,
computing `pos - start`, never underflows: `start + tell = pos`. -/
theorem c10_tell_total_invariant :
    (∀ (file : List Nat) (s e : Nat) (rs : ReadSlice),
      ReadSlice.new file s e = some rs → rs.start ≤ rs.pos ∧ rs.pos = s)
    ∧ (∀ rs : ReadSlice, rs.clone.start ≤ rs.clone.pos)
    ∧ (∀ (rs : ReadSlice) (sf : SeekFrom), rs.start ≤ rs.pos →
        (rs.seek sf).1.start ≤ (rs.seek sf).1.pos)
    ∧ (∀ (rs : ReadSlice) (n : Nat), rs.start ≤ rs.pos →
        (rs.read n).2.start ≤ (rs.read n).2.pos)
    ∧ (∀ rs : ReadSlice, rs.start ≤ rs.pos → rs.start + rs.tell = rs.pos) := by
  refine ⟨?_, fun rs => Nat.le_refl _, ?_, ?_, ?_⟩
  · intro file s e rs hnew
    simp only [ReadSlice.new] at hnew
    by_cases hse : s ≤ e
    · rw [if_pos hse] at hnew
      injection hnew with h
      rw [← h]
      exact ⟨Nat.le_refl s, rfl⟩
    · rw [if_neg hse] at hnew
      exact absurd hnew (by simp)
  · intro rs sf h
    cases sf with
    | Start p =>
        simp only [ReadSlice.seek]
        split
        · exact ReadSlice.seek_to_inv rs _ h
        · exact h
    | End off => exact ReadSlice.seek_from_inv rs rs.end_ off h
    | Current off => exact ReadSlice.seek_from_inv rs rs.pos off h
  · intro rs n h
    exact Nat.le_trans h (Nat.le_add_right _ _)
  · intro rs h
    unfold ReadSlice.tell
    omega

/-- Witness of `c10_tell_total_invariant` at concrete inputs: a fresh
slice over `[2, 5)`, a seek on it, and its `tell`. -/
theorem c10_witness :
    ((ReadSlice.mk 2 2 5 [7]).start ≤ (ReadSlice.mk 2 2 5 [7]).pos
      ∧ (ReadSlice.mk 2 2 5 [7]).pos = 2)
    ∧ ((ReadSlice.mk 2 3 5 [7]).seek (SeekFrom.Start 2)).1.start
        ≤ ((ReadSlice.mk 2 3 5 [7]).seek (SeekFrom.Start 2)).1.pos
    ∧ (2 : Nat) + (ReadSlice.mk 2 3 5 [7]).tell = 3 :=
  ⟨c10_tell_total_invariant.1 [7] 2 5 (ReadSlice.mk 2 2 5 [7]) rfl,
   c10_tell_total_invariant.2.2.1 (ReadSlice.mk 2 3 5 [7])
     (SeekFrom.Start 2) (by decide),
   c10_tell_total_invariant.2.2.2.2 (ReadSlice.mk 2 3 5 [7]) (by decide)⟩

/-- Failed `ReadPos` seeks leave the position unchanged. -/
theorem ReadPos.seek_from_err_unchanged (rp : ReadPos) (origin : Nat) (off : Int)
    (e : SeekError) (h : (rp.seek_from origin off).2 = Except.error e) :
    (rp.seek_from origin off).1 = rp := by
  by_cases hoff : off < 0
  · by_cases hsub : (-off).toNat ≤ origin
    · simp only [ReadPos.seek_from, checked_sub, if_pos hoff, if_pos hsub] at h
      simp at h
    · simp only [ReadPos.seek_from, checked_sub, if_pos hoff, if_neg hsub]
  · by_cases hadd : origin + off.toNat < u64Lim
    · simp only [ReadPos.seek_from, checked_add, if_neg hoff, if_pos hadd] at h
      simp at h
    · simp only [ReadPos.seek_from, checked_add, if_neg hoff, if_neg hadd]

/-- Failed `ReadSlice.seek_to` calls leave the state unchanged. -/
theorem ReadSlice.seek_to_err (rs : ReadSlice) (p : Nat) (e : SeekError)
    (h : (rs.seek_to p).2 = Except.error e) : (rs.seek_to p).1 = rs := by
  simp only [ReadSlice.seek_to] at h ⊢
  by_cases hp : p < rs.start
  · rw [if_pos hp]
  · rw [if_neg hp] at h
    simp at h

/-- Failed `ReadSlice` seeks leave the state unchanged. -/
theorem ReadSlice.seek_from_fail_unchanged (rs : ReadSlice) (origin : Nat) (off : Int)
    (e : SeekError) (h : (rs.seek_from origin off).2 = Except.error e) :
    (rs.seek_from origin off).1 = rs := by
  by_cases hoff : off < 0
  · by_cases hsub : (-off).toNat ≤ origin
    · simp only [ReadSlice.seek_from, checked_sub, if_pos hoff,
        if_pos hsub] at h ⊢
      exact ReadSlice.seek_to_err rs _ e h
    · simp only [ReadSlice.seek_from, checked_sub, if_pos hoff, if_neg hsub]
  · by_cases hadd : origin + off.toNat < u64Lim
    · simp only [ReadSlice.seek_from, checked_add, if_neg hoff,
        if_pos hadd] at h ⊢
      exact ReadSlice.seek_to_err rs _ e h
    · simp only [ReadSlice.seek_from, checked_add, if_neg hoff, if_neg hadd]

/-- C5: seek arithmetic is overflow-checked for both readers: a
positive offset whose addition exceeds the u64 range fails with the
overflow error, a negative offset larger than the origin fails with
the invalid-input error, a `ReadSlice` resolved absolute position
before the fixed `start` fails with the invalid-input error, and every
failing seek leaves the reader's position unchanged. -/
theorem c5_seek_overflow_checked :
    (∀ (rp : ReadPos) (origin : Nat) (off : Int), 0 ≤ off →
      u64Lim ≤ origin + off.toNat →
      rp.seek_from origin off = (rp, Except.error SeekError.overflow))
    ∧ (∀ (rp : ReadPos) (origin : Nat) (off : Int), off < 0 →
      origin < (-off).toNat →
      rp.seek_from origin off = (rp, Except.error SeekError.invalidInput))
    ∧ (∀ (rs : ReadSlice) (origin : Nat) (off : Int), 0 ≤ off →
      u64Lim ≤ origin + off.toNat →
      rs.seek_from origin off = (rs, Except.error SeekError.overflow))
    ∧ (∀ (rs : ReadSlice) (origin : Nat) (off : Int), off < 0 →
      origin < (-off).toNat →
      rs.seek_from origin off = (rs, Except.error SeekError.invalidInput))
    ∧ (∀ (rs : ReadSlice) (p : Nat), u64Lim ≤ rs.start + p →
      rs.seek (SeekFrom.Start p) = (rs, Except.error SeekError.overflow))
    ∧ (∀ (rs : ReadSlice) (origin : Nat) (off : Int), off < 0 →
      (-off).toNat ≤ origin → origin - (-off).toNat < rs.start →
      rs.seek_from origin off = (rs, Except.error SeekError.invalidInput))
    ∧ (∀ (rp : ReadPos) (sf : SeekFrom) (e : SeekError),
      (rp.seek sf).2 = Except.error e → (rp.seek sf).1 = rp)
    ∧ (∀ (rs : ReadSlice) (sf : SeekFrom) (e : SeekError),
      (rs.seek sf).2 = Except.error e → (rs.seek sf).1 = rs) := by
  refine ⟨?_, ?_, ?_, ?_, ?_, ?_, ?_, ?_⟩
  · intro rp origin off h0 hov
    simp only [ReadPos.seek_from, checked_add,
      if_neg (show ¬ off < 0 by omega),
      if_neg (show ¬ origin + off.toNat < u64Lim by omega)]
  · intro rp origin off h0 hun
    simp only [ReadPos.seek_from, checked_sub, if_pos h0,
      if_neg (show ¬ (-off).toNat ≤ origin by omega)]
  · intro rs origin off h0 hov
    simp only [ReadSlice.seek_from, checked_add,
      if_neg (show ¬ off < 0 by omega),
      if_neg (show ¬ origin + off.toNat < u64Lim by omega)]
  · intro rs origin off h0 hun
    simp only [ReadSlice.seek_from, checked_sub, if_pos h0,
      if_neg (show ¬ (-off).toNat ≤ origin by omega)]
  · intro rs p hov
    simp only [ReadSlice.seek, checked_add,
      if_neg (show ¬ rs.start + p < u64Lim by omega)]
  · intro rs origin off h0 hle hlt
    simp only [ReadSlice.seek_from, checked_sub, if_pos h0, if_pos hle,
      ReadSlice.seek_to, if_pos hlt]
  · intro rp sf e h
    cases sf with
    | Start p =>
        simp only [ReadPos.seek] at h
        exact absurd h (by simp)
    | End off => exact ReadPos.seek_from_err_unchanged rp rp.length off e h
    | Current off => exact ReadPos.seek_from_err_unchanged rp rp.pos off e h
  · intro rs sf e h
    cases sf with
    | Start p =>
        by_cases hadd : rs.start + p < u64Lim
        · simp only [ReadSlice.seek, checked_add, if_pos hadd] at h ⊢
          exact ReadSlice.seek_to_err rs _ e h
        · simp only [ReadSlice.seek, checked_add, if_neg hadd]
    | End off => exact ReadSlice.seek_from_fail_unchanged rs rs.end_ off e h
    | Current off => exact ReadSlice.seek_from_fail_unchanged rs rs.pos off e h

/-- Witness of `c5_seek_overflow_checked` at concrete inputs: each
failing seek mode on small readers near the u64 bound. -/
theorem c5_witness :
    ReadPos.seek_from (ReadPos.mk 0 0 []) (u64Lim - 1) 1
      = (ReadPos.mk 0 0 [], Except.error SeekError.overflow)
    ∧ ReadPos.seek_from (ReadPos.mk 0 0 []) 3 (-4)
      = (ReadPos.mk 0 0 [], Except.error SeekError.invalidInput)
    ∧ ReadSlice.seek_from (ReadSlice.mk 5 5 9 []) (u64Lim - 1) 1
      = (ReadSlice.mk 5 5 9 [], Except.error SeekError.overflow)
    ∧ ReadSlice.seek_from (ReadSlice.mk 5 5 9 []) 3 (-4)
      = (ReadSlice.mk 5 5 9 [], Except.error SeekError.invalidInput)
    ∧ ReadSlice.seek (ReadSlice.mk 5 5 9 []) (SeekFrom.Start (u64Lim - 5))
      = (ReadSlice.mk 5 5 9 [], Except.error SeekError.overflow)
    ∧ ReadSlice.seek_from (ReadSlice.mk 5 5 9 []) 5 (-2)
      = (ReadSlice.mk 5 5 9 [], Except.error SeekError.invalidInput)
    ∧ ((ReadPos.mk 0 0 []).seek (SeekFrom.End (-1))).1 = ReadPos.mk 0 0 []
    ∧ ((ReadSlice.mk 5 5 9 []).seek (SeekFrom.Current (-2))).1
      = ReadSlice.mk 5 5 9 [] :=
  ⟨c5_seek_overflow_checked.1 (ReadPos.mk 0 0 []) (u64Lim - 1) 1
     (by decide) (by decide),
   c5_seek_overflow_checked.2.1 (ReadPos.mk 0 0 []) 3 (-4)
     (by decide) (by decide),
   c5_seek_overflow_checked.2.2.1 (ReadSlice.mk 5 5 9 []) (u64Lim - 1) 1
     (by decide) (by decide),
   c5_seek_overflow_checked.2.2.2.1 (ReadSlice.mk 5 5 9 []) 3 (-4)
     (by decide) (by decide),
   c5_seek_overflow_checked.2.2.2.2.1 (ReadSlice.mk 5 5 9 []) (u64Lim - 5)
     (by decide),
   c5_seek_overflow_checked.2.2.2.2.2.1 (ReadSlice.mk 5 5 9 []) 5 (-2)
     (by decide) (by decide) (by decide),
   c5_seek_overflow_checked.2.2.2.2.2.2.1 (ReadPos.mk 0 0 [])
     (SeekFrom.End (-1)) SeekError.invalidInput rfl,
   c5_seek_overflow_checked.2.2.2.2.2.2.2 (ReadSlice.mk 5 5 9 [])
     (SeekFrom.Current (-2)) SeekError.invalidInput rfl⟩

/-- C7: for a `ReadSlice` over `[start, end_)` and relative bounds
`a ≤ b` with `start + b ≤ end_`, `subslice a b` equals the directly
constructed `ReadSlice.new file (start + a) (start + b)`; for `a > b`,
a sub-window not contained in the parent, or an overflowing offset
addition, `subslice` panics (modelled `none`) rather than returning a
recoverable error. -/
theorem c7_subslice_refinement :
    (∀ (rs : ReadSlice) (a b : Nat), rs.end_ < u64Lim → a ≤ b →
      rs.start + b ≤ rs.end_ →
      rs.subslice a b = ReadSlice.new rs.file (rs.start + a) (rs.start + b)
      ∧ rs.subslice a b
          = some { start := rs.start + a, pos := rs.start + a,
                   end_ := rs.start + b, file := rs.file })
    ∧ (∀ (rs : ReadSlice) (a b : Nat),
        b < a ∨ rs.end_ < rs.start + b ∨ u64Lim ≤ rs.start + a
          ∨ u64Lim ≤ rs.start + b →
        rs.subslice a b = none) := by
  constructor
  · intro rs a b he hab hcont
    have h1 : rs.start + a < u64Lim := by omega
    have h2 : rs.start + b < u64Lim := by omega
    have hnew : ReadSlice.new rs.file (rs.start + a) (rs.start + b)
        = some { start := rs.start + a, pos := rs.start + a,
                 end_ := rs.start + b, file := rs.file } := by
      simp only [ReadSlice.new]
      rw [if_pos (by omega)]
    constructor
    · simp only [ReadSlice.subslice, checked_add, if_pos h1, if_pos h2]
      rw [if_pos ⟨by omega, by omega, by omega⟩]
    · simp only [ReadSlice.subslice, checked_add, if_pos h1, if_pos h2]
      rw [if_pos ⟨by omega, by omega, by omega⟩, hnew]
  · intro rs a b hbad
    by_cases h1 : rs.start + a < u64Lim
    · by_cases h2 : rs.start + b < u64Lim
      · simp only [ReadSlice.subslice, checked_add, if_pos h1, if_pos h2]
        rw [if_neg (by omega)]
      · simp only [ReadSlice.subslice, checked_add, if_pos h1, if_neg h2]
    · simp only [ReadSlice.subslice, checked_add, if_neg h1]

/-- Witness of `c7_subslice_refinement` at the spec's concrete inputs:
a parent over `[1, 12)`, sub-window `[0, 10)` relative, and an inverted
pair that panics. -/
theorem c7_witness :
    ReadSlice.subslice
        (ReadSlice.mk 1 1 12 [0, 1, 2, 3, 4, 5, 6, 7, 8, 9, 0, 1]) 0 10
      = some (ReadSlice.mk 1 1 11 [0, 1, 2, 3, 4, 5, 6, 7, 8, 9, 0, 1])
    ∧ ReadSlice.subslice
        (ReadSlice.mk 1 1 12 [0, 1, 2, 3, 4, 5, 6, 7, 8, 9, 0, 1]) 0 10
      = ReadSlice.new [0, 1, 2, 3, 4, 5, 6, 7, 8, 9, 0, 1] 1 11
    ∧ ReadSlice.subslice (ReadSlice.mk 1 1 12 []) 2 1 = none :=
  ⟨(c7_subslice_refinement.1
      (ReadSlice.mk 1 1 12 [0, 1, 2, 3, 4, 5, 6, 7, 8, 9, 0, 1]) 0 10
      (by decide) (by decide) (by decide)).2,
   (c7_subslice_refinement.1
      (ReadSlice.mk 1 1 12 [0, 1, 2, 3, 4, 5, 6, 7, 8, 9, 0, 1]) 0 10
      (by decide) (by decide) (by decide)).1,
   c7_subslice_refinement.2 (ReadSlice.mk 1 1 12 []) 2 1
     (Or.inl (by decide))⟩

/-- C9: positioning is idempotent and reads depend only on the
position: seeking any reader over the same window and file to a
previously observed `tell` value succeeds, restores that `tell`, and a
subsequent read yields exactly the bytes of the original read from
that position. -/
theorem c9_seek_read_roundtrip :
    (∀ (rp rp₂ : ReadPos) (n : Nat), rp₂.file = rp.file →
      ((rp₂.seek (SeekFrom.Start rp.tell)).1.read n).1 = (rp.read n).1
      ∧ (rp₂.seek (SeekFrom.Start rp.tell)).1.tell = rp.tell)
    ∧ (∀ (rs rs₂ : ReadSlice) (n : Nat),
        rs.start ≤ rs.pos → rs.pos < u64Lim →
        rs₂.start = rs.start → rs₂.end_ = rs.end_ → rs₂.file = rs.file →
        (rs₂.seek (SeekFrom.Start rs.tell)).2 = Except.ok rs.tell
        ∧ ((rs₂.seek (SeekFrom.Start rs.tell)).1.read n).1 = (rs.read n).1
        ∧ (rs₂.seek (SeekFrom.Start rs.tell)).1.tell = rs.tell) := by
  constructor
  · intro rp rp₂ n hf
    constructor
    · show filePread rp₂.file n rp.tell = filePread rp.file n rp.pos
      rw [hf]
      rfl
    · rfl
  · intro rs rs₂ n h1 h2 hs he hf
    have hadd : checked_add rs₂.start rs.tell = some rs.pos := by
      simp only [checked_add, ReadSlice.tell, hs]
      rw [if_pos (by omega)]
      congr 1
      omega
    have ht : rs.pos - rs₂.start = rs.tell := by
      unfold ReadSlice.tell
      omega
    have hseek : rs₂.seek (SeekFrom.Start rs.tell)
        = ({ rs₂ with pos := rs.pos }, Except.ok rs.tell) := by
      simp only [ReadSlice.seek, hadd, ReadSlice.seek_to,
        if_neg (show ¬ rs.pos < rs₂.start by omega), ht]
    refine ⟨by rw [hseek], ?_, ?_⟩
    · rw [hseek]
      show ({ rs₂ with pos := rs.pos } : ReadSlice).pread_abs n rs.pos
        = rs.pread_abs n rs.pos
      simp only [ReadSlice.pread_abs, he, hf]
    · rw [hseek]
      show rs.pos - rs₂.start = rs.tell
      unfold ReadSlice.tell
      omega

/-- Witness of `c9_seek_read_roundtrip` at concrete inputs: a fresh
clone-like reader seeks to the observed position of another and reads
identical bytes. -/
theorem c9_witness :
    (((ReadPos.mk 7 9 [1, 2, 3]).seek
        (SeekFrom.Start (ReadPos.mk 2 9 [1, 2, 3]).tell)).1.read 2).1
      = ((ReadPos.mk 2 9 [1, 2, 3]).read 2).1
    ∧ ((ReadSlice.mk 1 3 4 [5, 6, 7, 8]).seek
        (SeekFrom.Start (ReadSlice.mk 1 3 4 [5, 6, 7, 8]).tell)).2
      = Except.ok (ReadSlice.mk 1 3 4 [5, 6, 7, 8]).tell :=
  ⟨(c9_seek_read_roundtrip.1 (ReadPos.mk 2 9 [1, 2, 3])
      (ReadPos.mk 7 9 [1, 2, 3]) 2 rfl).1,
   (c9_seek_read_roundtrip.2 (ReadSlice.mk 1 3 4 [5, 6, 7, 8])
      (ReadSlice.mk 1 3 4 [5, 6, 7, 8]) 2 (by decide) (by decide)
      rfl rfl rfl).1⟩
